import Mathlib

/-! Verification of the DifferentialPopulationBasedTraining repository.

Shallow embedding of the hyperparameter search-space algebra
(src/pbt/hyperparameters.py, src/utils.py), the worker pool
(src/pbt/worker_pool.py) and the old training service
(src/pbt/trainingservice_old.py).  Machine floats are modelled as exact
rationals; Python exceptions are modelled with `Except`.
-/

namespace PBT

/-- Python exception kinds raised by the embedded code paths. -/
inductive PyErr where
  | typeError (msg : String)
  | valueError (msg : String)
  | zeroDivisionError
  | indexError
  | assertionError
  | missingStateError
  | exception (msg : String)
deriving DecidableEq, Repr

/-- Function `clip` from src/utils.py lines 38-44: saturate `value` into
the interval from `min_value` to `max_value`. -/
def clip (value min_value max_value : ℚ) : ℚ :=
  if value ≤ min_value then min_value
  else if value ≥ max_value then max_value
  else value

/-- Function `translate` from src/utils.py lines 29-36: affine mapping of
`value` from the left range onto the right range.  Python divides by the
left span, so a zero span raises ZeroDivisionError. -/
def translate (value left_min left_max right_min right_max : ℚ) :
    Except PyErr ℚ :=
  if left_max - left_min = 0 then .error .zeroDivisionError
  else .ok (right_min + (value - left_min) / (left_max - left_min) * (right_max - right_min))

/-- Modelled from the spec: `reflect` (the module pbt/utils/constraint.py
is absent from src/, only `clip` and `translate` appear in src/utils.py).
Spec 4.1: mirror out-of-range values back into the window, reflecting
repeatedly, so that the result lies in the window for every finite input.
The standard triangular wave of period twice the span realizes this. -/
def reflect (value min_value max_value : ℚ) : ℚ :=
  let span := max_value - min_value
  let period := 2 * span
  if period = 0 then min_value
  else
    let m := period * Int.fract ((value - min_value) / period)
    if m ≤ span then min_value + m else min_value + (period - m)

/-- MIN_NORM from `_Hyperparameter.__init__` (hyperparameters.py line 28). -/
def MIN_NORM : ℚ := 0

/-- MAX_NORM from `_Hyperparameter.__init__` (hyperparameters.py line 29). -/
def MAX_NORM : ℚ := 1

/-- The boundary-constraint policy accepted by `_Hyperparameter.set_constraint`
(hyperparameters.py lines 43-54): either `clip` or `reflect`, partially
applied to MIN_NORM and MAX_NORM. -/
inductive Constraint where
  | clip
  | reflect
deriving DecidableEq, Repr

/-- Embedding of `self._constrain` as bound by `set_constraint`: the chosen boundary
handler applied with MIN_NORM and MAX_NORM. -/
def constrain (c : Constraint) (x : ℚ) : ℚ :=
  match c with
  | .clip => clip x MIN_NORM MAX_NORM
  | .reflect => reflect x MIN_NORM MAX_NORM

/-- Python call of `clip` by positional arguments.  `clip` declares three
required parameters (src/utils.py line 38), so any other arity raises
TypeError; `_Hyperparameter.__ipow__` (hyperparameters.py line 223) calls
it with a single argument. -/
def pyCallClip (args : List ℚ) : Except PyErr ℚ :=
  match args with
  | [v, lo, hi] => .ok (clip v lo hi)
  | _ => .error (.typeError "clip missing 2 required positional arguments: min_value and max_value")

/-- Mutations of a hyperparameter's `_normalized` coordinate, as exposed by
`_Hyperparameter` (hyperparameters.py).  Arithmetic with another
hyperparameter of equal search space uses that hyperparameter's
`_normalized` value, arithmetic with a Python scalar uses the scalar;
both appear here as the rational operand `q`.  Exponentiation of floats
is transcendental, so `powOther` and `ipowScalar` carry the numeric
result `r` of the Python expression `self._normalized ** other` computed
by the float unit; every theorem below holds for every such `r`. -/
inductive HpOp (α : Type) where
  | addOther (q : ℚ)
  | subOther (q : ℚ)
  | mulOther (q : ℚ)
  | divOther (q : ℚ)
  | powOther (r : ℚ)
  | ipowScalar (r : ℚ)
  | setNormalized (x : ℚ)
  | setValue (v : α)
  | sampleUniform (u : ℚ)
deriving DecidableEq, Repr

/-- An operation is fed well-distributed randomness: `random.uniform(a, b)`
returns a value between its bounds, so a `sampleUniform` draw lies in
the unit interval.  All other operations are unconditionally valid. -/
def HpOp.validB {α : Type} : HpOp α → Bool
  | .sampleUniform u => decide (MIN_NORM ≤ u ∧ u ≤ MAX_NORM)
  | _ => true

/-- Embedding of `ContiniousHyperparameter` (hyperparameters.py lines 264-323): the
search space is the pair (lower_bound, upper_bound); `intSpace` records
whether the bounds were Python ints, in which case reading `value`
rounds (`from_normalized` lines 318-321). -/
structure ContiniousHyperparameter where
  lower_bound : ℚ
  upper_bound : ℚ
  intSpace : Bool
  constraint : Constraint
  _normalized : ℚ
deriving DecidableEq, Repr

/-- Embedding of `DiscreteHyperparameter` (hyperparameters.py lines 325-405): a
categorical search space with `lower_bound = 0` and
`upper_bound = len(search_space) - 1`. -/
structure DiscreteHyperparameter (α : Type) where
  search_space : List α
  constraint : Constraint
  _normalized : ℚ
deriving DecidableEq, Repr

/-- Python 3 `round` on a finite value: round half to even. -/
def pyRound (q : ℚ) : ℤ :=
  if q - ⌊q⌋ < 1/2 then ⌊q⌋
  else if 1/2 < q - ⌊q⌋ then ⌊q⌋ + 1
  else if Even ⌊q⌋ then ⌊q⌋ else ⌊q⌋ + 1

/-- Python sequence indexing: non-negative indexes from the front,
negative indexes wrap once from the back, anything else raises
IndexError. -/
def pyGetElem {α : Type} (xs : List α) (i : ℤ) : Except PyErr α :=
  if h : 0 ≤ i ∧ i.toNat < xs.length then .ok (xs.get ⟨i.toNat, h.2⟩)
  else if h2 : i < 0 ∧ 0 ≤ i + xs.length ∧ (i + xs.length).toNat < xs.length then
    .ok (xs.get ⟨(i + xs.length).toNat, h2.2.2⟩)
  else .error .indexError

namespace ContiniousHyperparameter

/-- Embedding of `ContiniousHyperparameter.from_value` (hyperparameters.py lines 307-312)
via `_translate_from_value` (line 40): normalize `value` from the bounds
onto the unit interval. -/
def from_value (h : ContiniousHyperparameter) (value : ℚ) : Except PyErr ℚ :=
  translate value h.lower_bound h.upper_bound MIN_NORM MAX_NORM

/-- Embedding of `ContiniousHyperparameter.from_normalized` (hyperparameters.py lines
314-323): constrain, translate back to the bounds, and round when the
search space consists of Python ints. -/
def from_normalized (h : ContiniousHyperparameter) (normalized_value : ℚ) :
    Except PyErr ℚ := do
  let constrained := constrain h.constraint normalized_value
  let translated ← translate constrained MIN_NORM MAX_NORM h.lower_bound h.upper_bound
  if h.intSpace then .ok ((pyRound translated : ℤ) : ℚ) else .ok translated

/-- The `value` property (hyperparameters.py lines 283-288). -/
def value (h : ContiniousHyperparameter) : Except PyErr ℚ :=
  h.from_normalized h._normalized

/-- Embedding of `ContiniousHyperparameter.__init__` (hyperparameters.py lines 268-281)
with an explicit value.  The range check on line 279 is guarded by the
truthiness of `value`, hence skipped when the value is zero; a value that
fails the check raises ValueError, otherwise `_Hyperparameter.__init__`
(line 32) stores `from_value(value)` without constraining it. -/
def mkWithValue (minimum maximum : ℚ) (value : ℚ) (constraint : Constraint)
    (intSpace : Bool) : Except PyErr ContiniousHyperparameter :=
  if minimum > maximum then
    .error (.valueError "The minimum must be lower than the maximum.")
  else if value ≠ 0 ∧ ¬ (minimum ≤ value ∧ value ≤ maximum) then
    .error (.valueError "The provided value must be in range.")
  else do
    let n ← translate value minimum maximum MIN_NORM MAX_NORM
    .ok ⟨minimum, maximum, intSpace, constraint, n⟩

/-- Embedding of `ContiniousHyperparameter.__init__` without a value:
`_Hyperparameter.__init__` line 32 draws `random.uniform(MIN_NORM,
MAX_NORM)`; the draw `u` is passed in explicitly. -/
def mkSampled (minimum maximum : ℚ) (constraint : Constraint)
    (intSpace : Bool) (u : ℚ) : Except PyErr ContiniousHyperparameter :=
  if minimum > maximum then
    .error (.valueError "The minimum must be lower than the maximum.")
  else .ok ⟨minimum, maximum, intSpace, constraint, u⟩

/-- One mutation of a continuous hyperparameter, following
`_Hyperparameter` (hyperparameters.py): the fresh operators `__add__`,
`__sub__`, `__mul__`, `__truediv__`, `__pow__` (lines 108-171) deep-copy
and then store `self._constrain(...)` on the copy, while the in-place
operators `__iadd__` ... (lines 173-226) store the same expression on
`self`; both are the same state transformer here.  `__ipow__` with a
scalar (line 223) instead calls `clip` with a single argument.
`normalized.setter` (lines 65-70) and the `value` setter (lines 290-295)
constrain; `sample_uniform` (lines 100-102) stores the raw draw. -/
def step (h : ContiniousHyperparameter) :
    HpOp ℚ → Except PyErr ContiniousHyperparameter
  | .addOther q => .ok { h with _normalized := constrain h.constraint (h._normalized + q) }
  | .subOther q => .ok { h with _normalized := constrain h.constraint (h._normalized - q) }
  | .mulOther q => .ok { h with _normalized := constrain h.constraint (h._normalized * q) }
  | .divOther q =>
      if q = 0 then .error .zeroDivisionError
      else .ok { h with _normalized := constrain h.constraint (h._normalized / q) }
  | .powOther r => .ok { h with _normalized := constrain h.constraint r }
  | .ipowScalar r => do
      let c ← pyCallClip [r]
      .ok { h with _normalized := c }
  | .setNormalized x => .ok { h with _normalized := constrain h.constraint x }
  | .setValue v => do
      let fv ← h.from_value v
      .ok { h with _normalized := constrain h.constraint fv }
  | .sampleUniform u => .ok { h with _normalized := u }

/-- Apply a sequence of mutations.  An operation that raises leaves
`_normalized` unchanged (the Python exception propagates before the
assignment), so the run continues from the unchanged state; every state
reachable by an aborted Python sequence is a run of some prefix. -/
def run (h : ContiniousHyperparameter) : List (HpOp ℚ) → ContiniousHyperparameter
  | [] => h
  | op :: ops =>
      match h.step op with
      | .ok h2 => run h2 ops
      | .error _ => run h ops

end ContiniousHyperparameter

namespace DiscreteHyperparameter

variable {α : Type} [DecidableEq α]

/-- Embedding of `DiscreteHyperparameter.from_value` (hyperparameters.py lines 361-365):
assert membership, then translate the element's index from the index
range onto the unit interval (`lower_bound = 0`,
`upper_bound = len(search_space) - 1`, lines 351-359). -/
def from_value (h : DiscreteHyperparameter α) (v : α) : Except PyErr ℚ :=
  if v ∈ h.search_space then
    translate (h.search_space.indexOf v) 0 ((h.search_space.length : ℚ) - 1)
      MIN_NORM MAX_NORM
  else .error .assertionError

/-- Embedding of `DiscreteHyperparameter.from_normalized` (hyperparameters.py lines
367-372): constrain, translate onto the index range, round, index. -/
def from_normalized (h : DiscreteHyperparameter α) (normalized_value : ℚ) :
    Except PyErr α := do
  let constrained := constrain h.constraint normalized_value
  let translated ← translate constrained MIN_NORM MAX_NORM 0
    ((h.search_space.length : ℚ) - 1)
  pyGetElem h.search_space (pyRound translated)

/-- The `value` property (hyperparameters.py lines 337-342). -/
def value (h : DiscreteHyperparameter α) : Except PyErr α :=
  h.from_normalized h._normalized

/-- Embedding of `DiscreteHyperparameter.__init__` (hyperparameters.py lines 326-335)
with an explicit value: an empty search space or a value outside it
raises ValueError, otherwise `_Hyperparameter.__init__` line 32 stores
`from_value(value)` without constraining it. -/
def mkWithValue (search_space : List α) (value : α) (constraint : Constraint) :
    Except PyErr (DiscreteHyperparameter α) :=
  if search_space.isEmpty then .error (.valueError "No search space provided.")
  else if value ∉ search_space then
    .error (.valueError "The provided value must be present in the provided categorical search space.")
  else do
    let n ← DiscreteHyperparameter.from_value ⟨search_space, constraint, 0⟩ value
    .ok ⟨search_space, constraint, n⟩

/-- Embedding of `DiscreteHyperparameter.__init__` without a value: the uniform draw
`u` of `random.uniform(MIN_NORM, MAX_NORM)` is passed in explicitly. -/
def mkSampled (search_space : List α) (constraint : Constraint) (u : ℚ) :
    Except PyErr (DiscreteHyperparameter α) :=
  if search_space.isEmpty then .error (.valueError "No search space provided.")
  else .ok ⟨search_space, constraint, u⟩

/-- One mutation of a discrete hyperparameter; identical to the continuous
case except for the `value` setter (hyperparameters.py lines 344-349),
which requires membership in the categorical search space. -/
def step (h : DiscreteHyperparameter α) :
    HpOp α → Except PyErr (DiscreteHyperparameter α)
  | .addOther q => .ok { h with _normalized := constrain h.constraint (h._normalized + q) }
  | .subOther q => .ok { h with _normalized := constrain h.constraint (h._normalized - q) }
  | .mulOther q => .ok { h with _normalized := constrain h.constraint (h._normalized * q) }
  | .divOther q =>
      if q = 0 then .error .zeroDivisionError
      else .ok { h with _normalized := constrain h.constraint (h._normalized / q) }
  | .powOther r => .ok { h with _normalized := constrain h.constraint r }
  | .ipowScalar r => do
      let c ← pyCallClip [r]
      .ok { h with _normalized := c }
  | .setNormalized x => .ok { h with _normalized := constrain h.constraint x }
  | .setValue v =>
      if v ∈ h.search_space then do
        let fv ← h.from_value v
        .ok { h with _normalized := constrain h.constraint fv }
      else .error (.valueError "The provided value must be present in the categorical search space.")
  | .sampleUniform u => .ok { h with _normalized := u }

/-- Apply a sequence of mutations; a raising operation leaves
`_normalized` unchanged, as in the continuous case. -/
def run (h : DiscreteHyperparameter α) :
    List (HpOp α) → DiscreteHyperparameter α
  | [] => h
  | op :: ops =>
      match h.step op with
      | .ok h2 => run h2 ops
      | .error _ => run h ops

end DiscreteHyperparameter

/-- Invariant (I1)/(P1): the normalized coordinate lies in the unit
interval. -/
def InBounds (x : ℚ) : Prop := MIN_NORM ≤ x ∧ x ≤ MAX_NORM

instance (x : ℚ) : Decidable (InBounds x) := by
  unfold InBounds
  infer_instance

/-- A worker as spawned by `WorkerPool.__init__` and `_respawn`
(worker_pool.py lines 55-59 and 91-93): its uid, the index of the send
queue it receives from (the pool creates one queue per device, line 55),
its device string, and its RNG seed. -/
structure Worker where
  uid : ℕ
  queueId : ℕ
  device : String
  random_seed : ℕ
deriving DecidableEq, Repr

/-- Embedding of `WorkerPool.__init__` lines 55-59: `send_queues` holds one queue per
DEVICE, and the workers come from
`zip(range(n_jobs), itertools.cycle(send_queues), itertools.cycle(devices))`.
Both cycles have length `len(devices)`, so worker uid `i` is bound to
queue `i % len(devices)` and device `i % len(devices)`, with
`random_seed = uid`.  With no devices both cycles are empty and so is the
worker list. -/
def mkWorkers (devices : List String) (n_jobs : ℕ) : List Worker :=
  if devices.isEmpty then []
  else (List.range n_jobs).map fun i =>
    { uid := i, queueId := i % devices.length,
      device := devices.getD (i % devices.length) "", random_seed := i }

/-- A message on the shared return queue read by `WorkerPool.imap`
(worker_pool.py lines 154-160): either a result pushed by a worker that
completed a trial, or a FailMessage pushed by a worker that raised,
carrying the sender's uid. -/
inductive PoolMsg where
  | result (r : ℕ)
  | failMessage (sender : ℕ)
deriving DecidableEq, Repr

/-- How `imap` ends after its receive loop: blocked forever on
`return_queue.get()`, terminated by an exception, or normally. -/
inductive ImapEnd where
  | blockedOnGet
  | raised (e : PyErr)
  | ok
deriving DecidableEq, Repr

/-- The argument `imap` line 172 passes to `_respawn`: the whole set
`failed_workers`, although `_respawn(worker_id: int)` expects one
index. -/
inductive RespawnArg where
  | int (i : ℕ)
  | set (s : List ℕ)
deriving DecidableEq, Repr

/-- Embedding of `WorkerPool._respawn` (worker_pool.py lines 84-93): index
`self._workers[worker_id]` (a Python list indexed by a non-int — such as
the set passed on line 172 — raises TypeError), stop the worker, and
replace the entry by a fresh `Worker` with the same uid, receive queue
and device, and `random_seed = uid`. -/
def respawn (workers : List Worker) (arg : RespawnArg) :
    Except PyErr (List Worker) :=
  match arg with
  | .set _ => .error (.typeError "list indices must be integers or slices, not set")
  | .int i => do
      let w ← pyGetElem workers (i : ℤ)
      .ok (workers.set i ⟨w.uid, w.queueId, w.device, w.uid⟩)

/-- The receive loop of `imap` (worker_pool.py lines 153-160), driven by
the sequence of messages that will ever arrive on the return queue.  The
loop condition `n_returned != n_sent and len(failed_workers) < len(self._workers)`
is checked before each `return_queue.get()`; when it still holds and no
message will ever arrive, the `get` blocks forever.  A FailMessage
records its sender in the `failed_workers` set and yields nothing; a
result is yielded.  Returns the yielded results, the final `n_returned`,
the recorded failed workers, and `some` unread rest of the queue — or
`none` when the loop blocked. -/
def imapLoop (nSent nWorkers : ℕ) (nReturned : ℕ) (failed : List ℕ) :
    List PoolMsg → List ℕ × ℕ × List ℕ × Option (List PoolMsg)
  | [] =>
      if nReturned = nSent ∨ nWorkers ≤ failed.length then
        ([], nReturned, failed, some [])
      else ([], nReturned, failed, none)
  | m :: rest =>
      if nReturned = nSent ∨ nWorkers ≤ failed.length then
        ([], nReturned, failed, some (m :: rest))
      else
        match m with
        | .failMessage s =>
            imapLoop nSent nWorkers nReturned
              (if s ∈ failed then failed else failed.concat s) rest
        | .result r =>
            let out := imapLoop nSent nWorkers (nReturned + 1) failed rest
            (r :: out.1, out.2.1, out.2.2.1, out.2.2.2)

/-- The epilogue of `imap` (worker_pool.py lines 161-174): raise when the
return queue is not empty, when every worker failed, or when fewer
results than parameters arrived; otherwise, if some workers failed,
call `self._respawn(failed_workers)` — passing the set — and finish. -/
def imapFinal (workers : List Worker) (nSent nReturned : ℕ) (failed : List ℕ)
    (remaining : List PoolMsg) : ImapEnd :=
  if ¬ remaining.isEmpty then .raised (.exception "return queue is not empty.")
  else if failed.length = workers.length then .raised (.exception "all workers failed.")
  else if nReturned < nSent then
    if ¬ failed.isEmpty then .raised (.exception "workers failed.")
    else .raised (.exception "one or more parameters failed.")
  else if ¬ failed.isEmpty then
    match respawn workers (RespawnArg.set failed) with
    | .error e => .raised e
    | .ok _ => .ok
  else .ok

/-- Embedding of `WorkerPool.imap` after dispatch (worker_pool.py lines 143-174):
`n_sent` equals the number of parameters, since the zip on line 148
pairs every parameter with the endless worker cycle; then the receive
loop runs followed by the epilogue.  Returns the yielded results and
the end state. -/
def imapReceive (workers : List Worker) (nSent : ℕ) (queue : List PoolMsg) :
    List ℕ × ImapEnd :=
  let out := imapLoop nSent workers.length 0 [] queue
  match out.2.2.2 with
  | none => (out.1, .blockedOnGet)
  | some remaining => (out.1, imapFinal workers nSent out.2.1 out.2.2.1 remaining)

/-- The lifecycle state of a `torch.multiprocessing` worker process:
never started, running, exited (after join), or closed by
`Process.close()`. -/
inductive WorkerStatus where
  | fresh
  | alive
  | stopped
  | closed
deriving DecidableEq, Repr

/-- Embedding of `Process.is_alive()`: True for a running process, False for a
not-yet-started or exited one, and a ValueError on a closed process. -/
def pyIsAlive : WorkerStatus → Except PyErr Bool
  | .closed => .error (.valueError "process object is closed")
  | .alive => .ok true
  | _ => .ok false

/-- Python `any(worker.is_alive() for worker in self._workers)`: evaluate
left to right, short-circuit at the first True, propagate an exception
from an element. -/
def anyAlive : List WorkerStatus → Except PyErr Bool
  | [] => .ok false
  | st :: rest => do
      let b ← pyIsAlive st
      if b then .ok true else anyAlive rest

/-- Embedding of `Process.start()`: starts a fresh process; starting one a second time
raises. -/
def pyProcessStart : WorkerStatus → Except PyErr WorkerStatus
  | .fresh => .ok .alive
  | _ => .error (.assertionError)

/-- Embedding of `Process.join()` during `WorkerPool.stop`: the end event is set and a
STOP_FLAG is queued, so a running worker exits and the join returns; a
joined process stays joined; joining a never-started process raises
AssertionError and a closed one ValueError. -/
def pyProcessJoin : WorkerStatus → Except PyErr WorkerStatus
  | .alive => .ok .stopped
  | .stopped => .ok .stopped
  | .fresh => .error (.assertionError)
  | .closed => .error (.valueError "process object is closed")

/-- Embedding of `Process.close()`: release the process object; only a non-running
process can be closed. -/
def pyProcessClose : WorkerStatus → Except PyErr WorkerStatus
  | .alive => .error (.valueError "cannot close a process while it is still running")
  | .closed => .ok .closed
  | .fresh => .ok .closed
  | .stopped => .ok .closed

/-- A Python list comprehension `[f(w) for w in workers]` of an effectful
`f`: elements are processed left to right and an exception aborts the
comprehension, leaving the already-processed prefix mutated and the rest
untouched. -/
def mapComp (f : WorkerStatus → Except PyErr WorkerStatus) :
    List WorkerStatus → List WorkerStatus × Option PyErr
  | [] => ([], none)
  | st :: rest =>
      match f st with
      | .error e => (st :: rest, some e)
      | .ok st2 =>
          let out := mapComp f rest
          (st2 :: out.1, out.2)

/-- The mutable state of a `WorkerPool` that `start` and `stop` touch:
the per-worker process statuses, the manager end event, and the number
of STOP_FLAG sentinels that have been put on the receive queues. -/
structure PoolState where
  statuses : List WorkerStatus
  endEventSet : Bool
  stopFlagsQueued : ℕ
deriving DecidableEq, Repr

/-- Embedding of `WorkerPool.start` (worker_pool.py lines 100-103): raise when any
worker is alive (the `any` itself may raise on a closed worker), else
start every worker.  The returned pair is the state after the call and
the exception it raised, if any. -/
def WorkerPool.start (s : PoolState) : PoolState × Option PyErr :=
  match anyAlive s.statuses with
  | .error e => (s, some e)
  | .ok true =>
      (s, some (.exception "service is already running. Consider calling stop() when service is not in use."))
  | .ok false =>
      let out := mapComp pyProcessStart s.statuses
      ({ s with statuses := out.1 }, out.2)

/-- Embedding of `WorkerPool.stop` (worker_pool.py lines 105-116): set the end event;
inside `try`, warn and return when no worker is alive, else put a
STOP_FLAG per worker, join all, close all; `except ValueError` warns
instead of raising.  The returned exception is one that escapes (a
non-ValueError from join or close). -/
def WorkerPool.stop (s : PoolState) : PoolState × Option PyErr :=
  match anyAlive s.statuses with
  | .error (.valueError _) => ({ s with endEventSet := true }, none)
  | .error e => ({ s with endEventSet := true }, some e)
  | .ok false => ({ s with endEventSet := true }, none)
  | .ok true =>
      match mapComp pyProcessJoin s.statuses with
      | (sts, some (.valueError _)) =>
          (⟨sts, true, s.stopFlagsQueued + s.statuses.length⟩, none)
      | (sts, some e) =>
          (⟨sts, true, s.stopFlagsQueued + s.statuses.length⟩, some e)
      | (sts, none) =>
          match mapComp pyProcessClose sts with
          | (sts2, some (.valueError _)) =>
              (⟨sts2, true, s.stopFlagsQueued + s.statuses.length⟩, none)
          | (sts2, some e) =>
              (⟨sts2, true, s.stopFlagsQueued + s.statuses.length⟩, some e)
          | (sts2, none) =>
              (⟨sts2, true, s.stopFlagsQueued + s.statuses.length⟩, none)

/-- A Python sequence accepted by the `isinstance(parameters, (list,
tuple))` validation of `imap` (worker_pool.py line 137). -/
inductive PySeq (α : Type) where
  | list (xs : List α)
  | tuple (xs : List α)
deriving DecidableEq, Repr

/-- The elements of the sequence in order. -/
def PySeq.toList {α : Type} : PySeq α → List α
  | .list xs => xs
  | .tuple xs => xs

/-- Embedding of `len` of the sequence. -/
def PySeq.pyLength {α : Type} (s : PySeq α) : ℕ := s.toList.length

/-- Python subscript read `x[i]` for an in-range non-negative index. -/
def pySeqGet {α : Type} (s : PySeq α) (i : ℕ) : Except PyErr α :=
  if h : i < s.toList.length then .ok (s.toList.get ⟨i, h⟩)
  else .error .indexError

/-- Python item assignment `x[i] = a`: a list is mutated in place; a
tuple raises TypeError. -/
def pySetItem {α : Type} : PySeq α → ℕ → α → Except PyErr (PySeq α)
  | .list xs, i, a =>
      if i < xs.length then .ok (.list (xs.set i a)) else .error .indexError
  | .tuple _, _, _ =>
      .error (.typeError "tuple object does not support item assignment")

/-- The index sequence `reversed(range(1, n + 1))` = [n, n-1, ..., 1]
walked by CPython `random.Random.shuffle`. -/
def downFrom1 : ℕ → List ℕ
  | 0 => []
  | n + 1 => (n + 1) :: downFrom1 n

/-- The loop of CPython `random.Random.shuffle`:
`for i in reversed(range(1, len(x))): j = _randbelow(i + 1); x[i], x[j] = x[j], x[i]`.
The draws of `_randbelow(i + 1)` are supplied by the oracle list `js`
and capped at `i`, which `_randbelow` guarantees.  The tuple assignment
evaluates both right-hand sides first, then assigns `x[i]` and then
`x[j]`. -/
def shuffleGo {α : Type} : List ℕ → List ℕ → PySeq α → Except PyErr (PySeq α)
  | [], _, s => .ok s
  | i :: rest, js, s => do
      let xj ← pySeqGet s (min (js.headD 0) i)
      let xi ← pySeqGet s i
      let s1 ← pySetItem s i xj
      let s2 ← pySetItem s1 (min (js.headD 0) i) xi
      shuffleGo rest js.tail s2

/-- Embedding of `random.shuffle(parameters)` as called by `imap` (worker_pool.py
line 142): shuffle the sequence in place.  With fewer than two elements
the loop body never runs, so even a tuple passes through untouched. -/
def pyShuffle {α : Type} (js : List ℕ) (s : PySeq α) : Except PyErr (PySeq α) :=
  shuffleGo (downFrom1 (s.pyLength - 1)) js s

/-- The entry of `WorkerPool.imap` (worker_pool.py lines 134-151): the
argument checks accept any callable `function` and any list or tuple
`parameters`; with `shuffle=True`, `random.shuffle(parameters)` mutates
the caller's sequence in place BEFORE any trial is submitted; then each
parameter of the (shuffled) sequence is queued in order.  Returns the
sequence of parameters dispatched, or the exception raised before any
dispatch. -/
def imapDispatch {α : Type} (functionCallable : Bool) (parameters : PySeq α)
    (shuffleFlag : Bool) (js : List ℕ) : Except PyErr (List α) :=
  if ¬ functionCallable then
    .error (.typeError "function is not callable")
  else do
    let params ← if shuffleFlag then pyShuffle js parameters else .ok parameters
    .ok params.toList

/-- A checkpoint as handled by `train_and_evaluate`
(trainingservice_old.py lines 37-53): member id, step counter, whether
the persisted model/optimizer state resolves on disk (spec (I7)), and
the in-memory flags the service toggles. -/
structure Checkpoint where
  id : ℕ
  steps : ℕ
  stateOnDisk : Bool
  stateLoaded : Bool
  evaluated : Bool
deriving DecidableEq, Repr

/-- Modelled from the spec: `Checkpoint.load_state` (pbt/member.py is not
under src/; only its caller trainingservice_old.py is).  Spec 4.6 has
`train_and_evaluate` load state "tolerating missing state only when
steps < step_size", and spec 6 surfaces a missing or corrupt state blob
as MissingStateError: with the state present the checkpoint loads onto
the device; with it missing the call raises MissingStateError unless
`missing_ok` tolerates it. -/
def Checkpoint.load_state (c : Checkpoint) (missing_ok : Bool) :
    Except PyErr Checkpoint :=
  if c.stateOnDisk then .ok { c with stateLoaded := true }
  else if missing_ok then .ok c
  else .error .missingStateError

/-- The trainer and evaluator calls plus the final
`checkpoint.unload_state()` of `train_and_evaluate`
(trainingservice_old.py lines 44-52), as specified in spec 6: advance
`steps` by exactly `step_size`, record the evaluation, unload the
state. -/
def trainEvalUnload (c : Checkpoint) (step_size : ℕ) : Checkpoint :=
  { c with steps := c.steps + step_size, evaluated := true, stateLoaded := false }

/-- Embedding of `train_and_evaluate` (trainingservice_old.py lines 37-53): call
`checkpoint.load_state(missing_ok=checkpoint.steps < step_size)` inside
`try`; `except MissingStateError` WARNS and continues with the unloaded
checkpoint; then train, evaluate, unload, return.  Returns the final
checkpoint and whether the missing-state warning fired; the
MissingStateError is never re-raised to the caller. -/
def train_and_evaluate (c : Checkpoint) (step_size : ℕ) : Checkpoint × Bool :=
  match c.load_state (decide (c.steps < step_size)) with
  | .ok c2 => (trainEvalUnload c2 step_size, false)
  | .error _ => (trainEvalUnload c step_size, true)

theorem clip_le (value lo hi : ℚ) (h : lo ≤ hi) :
    lo ≤ clip value lo hi ∧ clip value lo hi ≤ hi := by
  unfold clip
  split
  · exact ⟨le_refl lo, h⟩
  · split
    · exact ⟨h, le_refl hi⟩
    · constructor <;> [linarith [not_le.mp (by assumption)]; skip]
      linarith [not_le.mp (by assumption)]

theorem reflect_le (value lo hi : ℚ) (h : lo < hi) :
    lo ≤ reflect value lo hi ∧ reflect value lo hi ≤ hi := by
  unfold reflect
  have hspan : (0:ℚ) < hi - lo := by linarith
  have hper : (0:ℚ) < 2 * (hi - lo) := by linarith
  have hne : ¬ (2 * (hi - lo) = 0) := by positivity
  simp only [hne, if_false]
  have hf0 : (0:ℚ) ≤ Int.fract ((value - lo) / (2 * (hi - lo))) :=
    Int.fract_nonneg _
  have hf1 : Int.fract ((value - lo) / (2 * (hi - lo))) < 1 :=
    Int.fract_lt_one _
  set f := Int.fract ((value - lo) / (2 * (hi - lo))) with hfdef
  have hm0 : (0:ℚ) ≤ 2 * (hi - lo) * f := by positivity
  have hm2 : 2 * (hi - lo) * f < 2 * (hi - lo) := by
    nlinarith
  split
  · constructor <;> nlinarith
  · constructor <;> nlinarith

theorem constrain_le (c : Constraint) (x : ℚ) :
    MIN_NORM ≤ constrain c x ∧ constrain c x ≤ MAX_NORM := by
  cases c with
  | clip => exact clip_le x MIN_NORM MAX_NORM (by norm_num [MIN_NORM, MAX_NORM])
  | reflect => exact reflect_le x MIN_NORM MAX_NORM (by norm_num [MIN_NORM, MAX_NORM])

theorem constrain_inBounds (c : Constraint) (x : ℚ) : InBounds (constrain c x) :=
  constrain_le c x

theorem cont_step_inBounds (h : ContiniousHyperparameter) (op : HpOp ℚ)
    (_hb : InBounds h._normalized) (hv : op.validB = true)
    (h2 : ContiniousHyperparameter) (hs : h.step op = .ok h2) :
    InBounds h2._normalized := by
  cases op with
  | addOther q =>
      simp only [ContiniousHyperparameter.step] at hs
      cases hs
      exact constrain_inBounds _ _
  | subOther q =>
      simp only [ContiniousHyperparameter.step] at hs
      cases hs
      exact constrain_inBounds _ _
  | mulOther q =>
      simp only [ContiniousHyperparameter.step] at hs
      cases hs
      exact constrain_inBounds _ _
  | divOther q =>
      simp only [ContiniousHyperparameter.step] at hs
      split at hs
      · cases hs
      · cases hs
        exact constrain_inBounds _ _
  | powOther r =>
      simp only [ContiniousHyperparameter.step] at hs
      cases hs
      exact constrain_inBounds _ _
  | ipowScalar r =>
      simp only [ContiniousHyperparameter.step, pyCallClip, Except.bind] at hs
      cases hs
  | setNormalized x =>
      simp only [ContiniousHyperparameter.step] at hs
      cases hs
      exact constrain_inBounds _ _
  | setValue v =>
      simp only [ContiniousHyperparameter.step] at hs
      cases hfv : h.from_value v with
      | error e => rw [hfv] at hs; cases hs
      | ok fv =>
          rw [hfv] at hs
          cases hs
          exact constrain_inBounds _ _
  | sampleUniform u =>
      simp only [ContiniousHyperparameter.step] at hs
      cases hs
      simpa [HpOp.validB, InBounds] using of_decide_eq_true hv

theorem cont_run_inBounds (ops : List (HpOp ℚ)) (h : ContiniousHyperparameter)
    (hb : InBounds h._normalized) (hv : ∀ op ∈ ops, op.validB = true) :
    InBounds (h.run ops)._normalized := by
  induction ops generalizing h with
  | nil => exact hb
  | cons op ops ih =>
      rw [ContiniousHyperparameter.run]
      cases hs : h.step op with
      | ok h2 =>
          exact ih h2 (cont_step_inBounds h op hb (hv op (by simp)) h2 hs)
            (fun o ho => hv o (by simp [ho]))
      | error e =>
          exact ih h hb (fun o ho => hv o (by simp [ho]))

theorem disc_step_inBounds {α : Type} [DecidableEq α]
    (h : DiscreteHyperparameter α) (op : HpOp α)
    (_hb : InBounds h._normalized) (hv : op.validB = true)
    (h2 : DiscreteHyperparameter α) (hs : h.step op = .ok h2) :
    InBounds h2._normalized := by
  cases op with
  | addOther q =>
      simp only [DiscreteHyperparameter.step] at hs
      cases hs
      exact constrain_inBounds _ _
  | subOther q =>
      simp only [DiscreteHyperparameter.step] at hs
      cases hs
      exact constrain_inBounds _ _
  | mulOther q =>
      simp only [DiscreteHyperparameter.step] at hs
      cases hs
      exact constrain_inBounds _ _
  | divOther q =>
      simp only [DiscreteHyperparameter.step] at hs
      split at hs
      · cases hs
      · cases hs
        exact constrain_inBounds _ _
  | powOther r =>
      simp only [DiscreteHyperparameter.step] at hs
      cases hs
      exact constrain_inBounds _ _
  | ipowScalar r =>
      simp only [DiscreteHyperparameter.step, pyCallClip, Except.bind] at hs
      cases hs
  | setNormalized x =>
      simp only [DiscreteHyperparameter.step] at hs
      cases hs
      exact constrain_inBounds _ _
  | setValue v =>
      simp only [DiscreteHyperparameter.step] at hs
      split at hs
      · cases hfv : h.from_value v with
        | error e => rw [hfv] at hs; cases hs
        | ok fv =>
            rw [hfv] at hs
            cases hs
            exact constrain_inBounds _ _
      · cases hs
  | sampleUniform u =>
      simp only [DiscreteHyperparameter.step] at hs
      cases hs
      simpa [HpOp.validB, InBounds] using of_decide_eq_true hv

theorem disc_run_inBounds {α : Type} [DecidableEq α] (ops : List (HpOp α))
    (h : DiscreteHyperparameter α)
    (hb : InBounds h._normalized) (hv : ∀ op ∈ ops, op.validB = true) :
    InBounds (h.run ops)._normalized := by
  induction ops generalizing h with
  | nil => exact hb
  | cons op ops ih =>
      rw [DiscreteHyperparameter.run]
      cases hs : h.step op with
      | ok h2 =>
          exact ih h2 (disc_step_inBounds h op hb (hv op (by simp)) h2 hs)
            (fun o ho => hv o (by simp [ho]))
      | error e =>
          exact ih h hb (fun o ho => hv o (by simp [ho]))

theorem except_bind_ok {ε α β : Type} (a : α) (f : α → Except ε β) :
    (Except.ok a : Except ε α) >>= f = f a := rfl

theorem pyRound_zero : pyRound 0 = 0 := by
  norm_num [pyRound]

theorem except_bind_err {ε α β : Type} (e : ε) (f : α → Except ε β) :
    (Except.error e : Except ε α) >>= f = Except.error e := rfl

theorem translate_ok (value lmin lmax rmin rmax n : ℚ)
    (h : translate value lmin lmax rmin rmax = .ok n) :
    lmax - lmin ≠ 0 ∧ n = rmin + (value - lmin) / (lmax - lmin) * (rmax - rmin) := by
  unfold translate at h
  split at h
  · cases h
  · cases h
    exact ⟨by assumption, rfl⟩

theorem translate_eq (value lmin lmax rmin rmax : ℚ) (h : lmax - lmin ≠ 0) :
    translate value lmin lmax rmin rmax
      = .ok (rmin + (value - lmin) / (lmax - lmin) * (rmax - rmin)) := by
  unfold translate
  simp only [h, if_false]

theorem cont_mkWithValue_inBounds (mn mx v : ℚ) (c : Constraint) (b : Bool)
    (h : ContiniousHyperparameter)
    (hok : ContiniousHyperparameter.mkWithValue mn mx v c b = .ok h)
    (hlo : mn ≤ v) (hhi : v ≤ mx) : InBounds h._normalized := by
  unfold ContiniousHyperparameter.mkWithValue at hok
  split at hok
  · cases hok
  · split at hok
    · cases hok
    · cases htr : translate v mn mx MIN_NORM MAX_NORM with
      | error e => rw [htr] at hok; cases hok
      | ok n =>
          rw [htr] at hok
          injection hok with he
          subst he
          obtain ⟨hne, hn⟩ := translate_ok v mn mx MIN_NORM MAX_NORM n htr
          have hle : ¬ (mn > mx) := by assumption
          have hpos : 0 < mx - mn := by
            rcases lt_or_eq_of_le (not_lt.mp hle) with h1 | h1
            · linarith
            · exact absurd (by linarith : mx - mn = 0) hne
          have hd0 : 0 ≤ (v - mn) / (mx - mn) := div_nonneg (by linarith) (le_of_lt hpos)
          have hd1 : (v - mn) / (mx - mn) ≤ 1 := by
            rw [div_le_one hpos]
            linarith
          subst hn
          refine ⟨?_, ?_⟩
          · show MIN_NORM ≤ MIN_NORM + (v - mn) / (mx - mn) * (MAX_NORM - MIN_NORM)
            simp only [MIN_NORM, MAX_NORM]
            linarith
          · show MIN_NORM + (v - mn) / (mx - mn) * (MAX_NORM - MIN_NORM) ≤ MAX_NORM
            simp only [MIN_NORM, MAX_NORM]
            linarith

theorem cont_mkSampled_inBounds (mn mx u : ℚ) (c : Constraint) (b : Bool)
    (h : ContiniousHyperparameter)
    (hok : ContiniousHyperparameter.mkSampled mn mx c b u = .ok h)
    (hu0 : MIN_NORM ≤ u) (hu1 : u ≤ MAX_NORM) : InBounds h._normalized := by
  unfold ContiniousHyperparameter.mkSampled at hok
  split at hok
  · cases hok
  · cases hok
    exact ⟨hu0, hu1⟩

theorem disc_mkWithValue_inBounds {α : Type} [DecidableEq α]
    (ss : List α) (v : α) (c : Constraint) (h : DiscreteHyperparameter α)
    (hok : DiscreteHyperparameter.mkWithValue ss v c = .ok h) :
    InBounds h._normalized := by
  unfold DiscreteHyperparameter.mkWithValue at hok
  split at hok
  · cases hok
  · split at hok
    · cases hok
    · have hmem : v ∈ ss := not_not.mp (by assumption)
      unfold DiscreteHyperparameter.from_value at hok
      simp only [hmem, if_true] at hok
      cases htr : translate ((ss.indexOf v : ℚ)) 0 ((ss.length : ℚ) - 1) MIN_NORM MAX_NORM with
      | error e => rw [htr] at hok; cases hok
      | ok n =>
          rw [htr] at hok
          injection hok with he
          subst he
          obtain ⟨hne, hn⟩ := translate_ok _ _ _ _ _ n htr
          have hlen1 : 1 ≤ ss.length := by
            cases ss with
            | nil => exact absurd hmem (List.not_mem_nil v)
            | cons a t => simp
          have hidx : ss.indexOf v < ss.length := List.indexOf_lt_length.mpr hmem
          have hpos : 0 < (ss.length : ℚ) - 1 := by
            have h0 : (0:ℚ) ≤ (ss.length : ℚ) - 1 := by
              have : (1:ℚ) ≤ (ss.length : ℚ) := by exact_mod_cast hlen1
              linarith
            rcases lt_or_eq_of_le h0 with h1 | h1
            · exact h1
            · exact absurd (by linarith : (ss.length : ℚ) - 1 - 0 = 0) hne
          have hiq : ((ss.indexOf v : ℚ)) ≤ (ss.length : ℚ) - 1 := by
            have : (ss.indexOf v : ℚ) + 1 ≤ (ss.length : ℚ) := by
              exact_mod_cast Nat.succ_le_of_lt hidx
            linarith
          have hiq0 : (0:ℚ) ≤ (ss.indexOf v : ℚ) := by positivity
          have hd0 : 0 ≤ ((ss.indexOf v : ℚ) - 0) / ((ss.length : ℚ) - 1 - 0) := by
            apply div_nonneg <;> linarith
          have hd1 : ((ss.indexOf v : ℚ) - 0) / ((ss.length : ℚ) - 1 - 0) ≤ 1 := by
            rw [div_le_one (by linarith)]
            linarith
          subst hn
          refine ⟨?_, ?_⟩
          · show MIN_NORM ≤ MIN_NORM + ((ss.indexOf v : ℚ) - 0) / ((ss.length : ℚ) - 1 - 0) * (MAX_NORM - MIN_NORM)
            simp only [MIN_NORM, MAX_NORM]
            linarith
          · show MIN_NORM + ((ss.indexOf v : ℚ) - 0) / ((ss.length : ℚ) - 1 - 0) * (MAX_NORM - MIN_NORM) ≤ MAX_NORM
            simp only [MIN_NORM, MAX_NORM]
            linarith

theorem disc_mkSampled_inBounds {α : Type} [DecidableEq α]
    (ss : List α) (u : ℚ) (c : Constraint) (h : DiscreteHyperparameter α)
    (hok : DiscreteHyperparameter.mkSampled ss c u = .ok h)
    (hu0 : MIN_NORM ≤ u) (hu1 : u ≤ MAX_NORM) : InBounds h._normalized := by
  unfold DiscreteHyperparameter.mkSampled at hok
  split at hok
  · cases hok
  · cases hok
    exact ⟨hu0, hu1⟩

/-- Claim C1: for every Hyperparameter (continuous or discrete), after any
sequence of operations — including construction with an explicit in-range
value or with a uniform draw, arithmetic, value and normalized setters,
and sample_uniform — its normalized coordinate satisfies
`0 ≤ normalized ≤ 1`. -/
theorem C1_normalized_always_in_unit_interval :
    (∀ (mn mx v : ℚ) (c : Constraint) (b : Bool) (h : ContiniousHyperparameter)
        (ops : List (HpOp ℚ)),
        ContiniousHyperparameter.mkWithValue mn mx v c b = .ok h →
        mn ≤ v → v ≤ mx → (∀ op ∈ ops, op.validB = true) →
        InBounds (h.run ops)._normalized) ∧
    (∀ (mn mx u : ℚ) (c : Constraint) (b : Bool) (h : ContiniousHyperparameter)
        (ops : List (HpOp ℚ)),
        ContiniousHyperparameter.mkSampled mn mx c b u = .ok h →
        MIN_NORM ≤ u → u ≤ MAX_NORM → (∀ op ∈ ops, op.validB = true) →
        InBounds (h.run ops)._normalized) ∧
    (∀ (α : Type) [DecidableEq α] (ss : List α) (v : α) (c : Constraint)
        (h : DiscreteHyperparameter α) (ops : List (HpOp α)),
        DiscreteHyperparameter.mkWithValue ss v c = .ok h →
        (∀ op ∈ ops, op.validB = true) →
        InBounds (h.run ops)._normalized) ∧
    (∀ (α : Type) [DecidableEq α] (ss : List α) (u : ℚ) (c : Constraint)
        (h : DiscreteHyperparameter α) (ops : List (HpOp α)),
        DiscreteHyperparameter.mkSampled ss c u = .ok h →
        MIN_NORM ≤ u → u ≤ MAX_NORM → (∀ op ∈ ops, op.validB = true) →
        InBounds (h.run ops)._normalized) := by
  refine ⟨?_, ?_, ?_, ?_⟩
  · intro mn mx v c b h ops hok hlo hhi hv
    exact cont_run_inBounds ops h (cont_mkWithValue_inBounds mn mx v c b h hok hlo hhi) hv
  · intro mn mx u c b h ops hok hu0 hu1 hv
    exact cont_run_inBounds ops h (cont_mkSampled_inBounds mn mx u c b h hok hu0 hu1) hv
  · intro α inst ss v c h ops hok hv
    exact disc_run_inBounds ops h (disc_mkWithValue_inBounds ss v c h hok) hv
  · intro α inst ss u c h ops hok hu0 hu1 hv
    exact disc_run_inBounds ops h (disc_mkSampled_inBounds ss u c h hok hu0 hu1) hv

theorem C1_witness :
    InBounds ((⟨0, 1, false, Constraint.clip, 1/2⟩ : ContiniousHyperparameter).run
      [HpOp.addOther 10, HpOp.sampleUniform (1/3), HpOp.divOther 0,
       HpOp.ipowScalar 4])._normalized ∧
    InBounds ((⟨0, 1, false, Constraint.reflect, 2/5⟩ : ContiniousHyperparameter).run
      [HpOp.setNormalized (5/4), HpOp.setValue 7])._normalized ∧
    InBounds ((⟨[3, 6, 9], Constraint.clip, 1/2⟩ : DiscreteHyperparameter ℕ).run
      [HpOp.subOther 2, HpOp.setValue 9])._normalized ∧
    InBounds ((⟨[3, 6, 9], Constraint.reflect, 2/5⟩ : DiscreteHyperparameter ℕ).run
      [HpOp.mulOther 3, HpOp.powOther 5])._normalized :=
  ⟨C1_normalized_always_in_unit_interval.1 0 1 (1/2) Constraint.clip false _ _
      (by norm_num [ContiniousHyperparameter.mkWithValue, translate, MIN_NORM, MAX_NORM]
          rfl)
      (by norm_num) (by norm_num)
      (by intro op hop
          fin_cases hop <;> norm_num [HpOp.validB, MIN_NORM, MAX_NORM]),
   C1_normalized_always_in_unit_interval.2.1 0 1 (2/5) Constraint.reflect false _ _
      (by norm_num [ContiniousHyperparameter.mkSampled])
      (by norm_num [MIN_NORM]) (by norm_num [MAX_NORM])
      (by intro op hop
          fin_cases hop <;> norm_num [HpOp.validB, MIN_NORM, MAX_NORM]),
   C1_normalized_always_in_unit_interval.2.2.1 ℕ [3, 6, 9] 6 Constraint.clip _ _
      (by norm_num [DiscreteHyperparameter.mkWithValue, DiscreteHyperparameter.from_value,
            translate, MIN_NORM, MAX_NORM, List.indexOf, List.findIdx, List.findIdx.go]
          rfl)
      (by intro op hop
          fin_cases hop <;> norm_num [HpOp.validB, MIN_NORM, MAX_NORM]),
   C1_normalized_always_in_unit_interval.2.2.2 ℕ [3, 6, 9] (2/5) Constraint.reflect _ _
      (by norm_num [DiscreteHyperparameter.mkSampled])
      (by norm_num [MIN_NORM]) (by norm_num [MAX_NORM])
      (by intro op hop
          fin_cases hop <;> norm_num [HpOp.validB, MIN_NORM, MAX_NORM])⟩

/-- Claim C6: the spec deems a one-element discrete search space valid,
and indeed `DiscreteHyperparameter.__init__` accepts it — but
constructing with the single element as the explicit value, and likewise
assigning it through the `value` setter, crash with ZeroDivisionError:
`from_value` translates the index over a search-space span of
`len(search_space) - 1 = 0` and `translate` divides by that zero span
(src/utils.py line 34).  Reading `value` on such a hyperparameter does
work, via the non-degenerate normalized span. -/
theorem C6_singleton_discrete_zero_division :
    DiscreteHyperparameter.mkWithValue [7] 7 Constraint.clip
      = (.error .zeroDivisionError : Except PyErr (DiscreteHyperparameter ℕ)) ∧
    (⟨[7], Constraint.clip, 1/2⟩ : DiscreteHyperparameter ℕ).step (HpOp.setValue 7)
      = .error .zeroDivisionError ∧
    (⟨[7], Constraint.clip, 1/2⟩ : DiscreteHyperparameter ℕ).value = .ok 7 := by
  refine ⟨?_, ?_, ?_⟩
  · norm_num [DiscreteHyperparameter.mkWithValue, DiscreteHyperparameter.from_value,
      translate, MIN_NORM, MAX_NORM, except_bind_err]
  · norm_num [DiscreteHyperparameter.step, DiscreteHyperparameter.from_value,
      translate, MIN_NORM, MAX_NORM, except_bind_err]
  · norm_num [DiscreteHyperparameter.value, DiscreteHyperparameter.from_normalized,
      translate, MIN_NORM, MAX_NORM, constrain, clip, pyRound_zero, pyGetElem,
      except_bind_ok]

/-- Claim C7: for the continuous hyperparameter over (0.0, 1.0) with value
0.5 and the clip constraint, `h + 10.0` (`__add__`, which deep-copies and
constrains the copy) produces a hyperparameter whose normalized
coordinate is 1.0 and whose value reads 1.0, while `h` itself still holds
normalized 0.5 and value 0.5. -/
theorem C7_add_scalar_saturates :
    ContiniousHyperparameter.mkWithValue 0 1 (1/2) Constraint.clip false
      = .ok ⟨0, 1, false, Constraint.clip, 1/2⟩ ∧
    (⟨0, 1, false, Constraint.clip, 1/2⟩ : ContiniousHyperparameter).step
        (HpOp.addOther 10)
      = .ok ⟨0, 1, false, Constraint.clip, 1⟩ ∧
    (⟨0, 1, false, Constraint.clip, 1⟩ : ContiniousHyperparameter).value = .ok 1 ∧
    (⟨0, 1, false, Constraint.clip, 1/2⟩ : ContiniousHyperparameter).value
      = .ok (1/2) := by
  refine ⟨?_, ?_, ?_, ?_⟩
  · norm_num [ContiniousHyperparameter.mkWithValue, translate, MIN_NORM, MAX_NORM]
    rfl
  · norm_num [ContiniousHyperparameter.step, constrain, clip, MIN_NORM, MAX_NORM]
  · norm_num [ContiniousHyperparameter.value, ContiniousHyperparameter.from_normalized,
      translate, MIN_NORM, MAX_NORM, constrain, clip, except_bind_ok]
  · norm_num [ContiniousHyperparameter.value, ContiniousHyperparameter.from_normalized,
      translate, MIN_NORM, MAX_NORM, constrain, clip, except_bind_ok]

theorem clip_eq_self (x lo hi : ℚ) (h0 : lo ≤ x) (h1 : x ≤ hi) :
    clip x lo hi = x := by
  unfold clip
  split
  · exact (le_antisymm (by assumption) h0).symm
  · split
    · exact (le_antisymm h1 (by assumption)).symm
    · rfl

theorem reflect_eq_self (x : ℚ) (h0 : (0:ℚ) ≤ x) (h1 : x ≤ 1) :
    reflect x 0 1 = x := by
  unfold reflect
  have hne : ¬ ((2:ℚ) * (1 - 0) = 0) := by norm_num
  simp only [hne, if_false]
  have hfr : Int.fract ((x - 0) / (2 * (1 - 0))) = (x - 0) / (2 * (1 - 0)) := by
    rw [Int.fract_eq_self]
    constructor
    · apply div_nonneg <;> linarith
    · rw [div_lt_one (by norm_num)]
      linarith
  rw [hfr]
  have hm : (2:ℚ) * (1 - 0) * ((x - 0) / (2 * (1 - 0))) = x := by
    field_simp
  rw [hm]
  rw [if_pos (show x ≤ 1 - 0 by linarith)]
  ring

theorem constrain_eq_self (c : Constraint) (x : ℚ)
    (h0 : MIN_NORM ≤ x) (h1 : x ≤ MAX_NORM) : constrain c x = x := by
  cases c with
  | clip => exact clip_eq_self x MIN_NORM MAX_NORM h0 h1
  | reflect =>
      show reflect x MIN_NORM MAX_NORM = x
      simp only [MIN_NORM, MAX_NORM] at h0 h1 ⊢
      exact reflect_eq_self x h0 h1

theorem pyRound_nonneg (q : ℚ) (h : 0 ≤ q) : 0 ≤ pyRound q := by
  have hf : 0 ≤ ⌊q⌋ := Int.floor_nonneg.mpr h
  unfold pyRound
  split
  · exact hf
  · split
    · omega
    · split <;> omega

theorem pyRound_le (q : ℚ) (B : ℤ) (h : q ≤ (B : ℚ)) : pyRound q ≤ B := by
  have hfl : ⌊q⌋ ≤ B := by
    have := Int.floor_le_floor h
    simpa using this
  unfold pyRound
  split
  · exact hfl
  · have hr : 1/2 ≤ q - (⌊q⌋ : ℚ) := not_lt.mp (by assumption)
    have hstrict : ⌊q⌋ < B := by
      by_contra hc
      have heq : ⌊q⌋ = B := le_antisymm hfl (not_lt.mp hc)
      have : ((⌊q⌋ : ℚ)) + 1/2 ≤ (B : ℚ) := by linarith
      rw [heq] at this
      linarith
    split
    · omega
    · split <;> omega

/-- Claim C8: for every discrete hyperparameter — with either constraint
policy, both of which are the identity on the unit interval — and every
normalized coordinate x in the unit interval, reading `value` returns
the search-space element at index `round(x * (len - 1))` —
`from_normalized` translates affinely onto the index range and rounds to
the nearest index (Python round, ties to even). -/
theorem C8_discrete_value_rounds {α : Type} [DecidableEq α]
    (ss : List α) (c : Constraint) (x : ℚ) (d : α)
    (hss : ss ≠ []) (h0 : 0 ≤ x) (h1 : x ≤ 1) :
    (⟨ss, c, x⟩ : DiscreteHyperparameter α).value
      = .ok (ss.getD (pyRound (x * ((ss.length : ℚ) - 1))).toNat d) := by
  have hlen : 1 ≤ ss.length := List.length_pos.mpr hss
  unfold DiscreteHyperparameter.value DiscreteHyperparameter.from_normalized
  dsimp only
  have hcon : constrain c x = x :=
    constrain_eq_self c x (by simpa [MIN_NORM]) (by simpa [MAX_NORM])
  rw [hcon]
  have hsp : MAX_NORM - MIN_NORM ≠ 0 := by norm_num [MIN_NORM, MAX_NORM]
  rw [translate_eq x MIN_NORM MAX_NORM 0 ((ss.length : ℚ) - 1) hsp]
  rw [except_bind_ok]
  have harg : (0:ℚ) + (x - MIN_NORM) / (MAX_NORM - MIN_NORM) * (((ss.length : ℚ) - 1) - 0)
      = x * ((ss.length : ℚ) - 1) := by
    norm_num [MIN_NORM, MAX_NORM]
  rw [harg]
  have hL1 : (0:ℚ) ≤ (ss.length : ℚ) - 1 := by
    have hq : (1:ℚ) ≤ (ss.length : ℚ) := by exact_mod_cast hlen
    linarith
  have hy0 : 0 ≤ x * ((ss.length : ℚ) - 1) := mul_nonneg h0 hL1
  have hi0 : 0 ≤ pyRound (x * ((ss.length : ℚ) - 1)) := pyRound_nonneg _ hy0
  have hiB : pyRound (x * ((ss.length : ℚ) - 1)) ≤ (ss.length : ℤ) - 1 := by
    apply pyRound_le
    push_cast
    nlinarith
  have hilt : (pyRound (x * ((ss.length : ℚ) - 1))).toNat < ss.length := by omega
  unfold pyGetElem
  rw [dif_pos ⟨hi0, hilt⟩]
  rw [List.getD_eq_get ss d hilt]

theorem C8_witness :
    ((⟨['a', 'b', 'c'], Constraint.clip, 2/5⟩ : DiscreteHyperparameter Char).value
      = .ok (['a', 'b', 'c'].getD
          (pyRound ((2/5 : ℚ) * (((['a', 'b', 'c'] : List Char).length : ℚ) - 1))).toNat 'z')) ∧
    ((⟨['a', 'b', 'c'], Constraint.reflect, 2/5⟩ : DiscreteHyperparameter Char).value
      = .ok (['a', 'b', 'c'].getD
          (pyRound ((2/5 : ℚ) * (((['a', 'b', 'c'] : List Char).length : ℚ) - 1))).toNat 'z')) ∧
    (['a', 'b', 'c'].getD
        (pyRound ((2/5 : ℚ) * (((['a', 'b', 'c'] : List Char).length : ℚ) - 1))).toNat 'z' = 'b') :=
  ⟨C8_discrete_value_rounds ['a', 'b', 'c'] Constraint.clip (2/5) 'z'
      (by simp) (by norm_num) (by norm_num),
   C8_discrete_value_rounds ['a', 'b', 'c'] Constraint.reflect (2/5) 'z'
      (by simp) (by norm_num) (by norm_num),
   by norm_num [pyRound]⟩

/-- Claim C3: the spec scenario has 3 workers, one parameter each, and
worker 1 pushing a FailMessage instead of its result.  The code does
yield the two surviving results, but then the loop condition
`n_returned != n_sent and len(failed_workers) < len(self._workers)`
still holds with no message left, so `imap` blocks forever on
`return_queue.get()` — worker 1 is never respawned and the generation
does not proceed.  Moreover, had the loop exited with the counts equal,
the epilogue calls `_respawn(failed_workers)` with the whole set, and
indexing the worker list with a set raises TypeError, so the claimed
respawn behaviour is unreachable. -/
theorem C3_partial_failure_blocks_and_respawn_is_broken :
    imapReceive (mkWorkers ["cpu"] 3) 3
        [PoolMsg.result 10, PoolMsg.failMessage 1, PoolMsg.result 12]
      = ([10, 12], ImapEnd.blockedOnGet) ∧
    imapFinal (mkWorkers ["cpu"] 3) 3 3 [1] []
      = .raised (.typeError "list indices must be integers or slices, not set") := by
  decide

/-- Claim C5 counterexample: the pool constructed with devices ['cpu'] and
n_jobs = 2 (accepted, since n_jobs ≥ len(devices)) gives both workers the
SAME receive queue — queue 0 of the single device — because queues are
created one per device and cycled, so the queue is not dedicated. -/
theorem C5_counterexample :
    (mkWorkers ["cpu"] 2).map Worker.queueId = [0, 0] ∧
    ¬ List.Pairwise (fun w1 w2 => w1.queueId ≠ w2.queueId) (mkWorkers ["cpu"] 2) := by
  decide

theorem mkWorkers_getD (devices : List String) (n_jobs i : ℕ) (d : Worker)
    (hd : devices ≠ []) (hi : i < n_jobs) :
    (mkWorkers devices n_jobs).getD i d
      = ⟨i, i % devices.length, devices.getD (i % devices.length) "", i⟩ := by
  unfold mkWorkers
  rw [if_neg (by simpa using hd)]
  have hlt : i < ((List.range n_jobs).map fun i =>
      (⟨i, i % devices.length, devices.getD (i % devices.length) "", i⟩ : Worker)).length := by
    simpa using hi
  rw [List.getD_eq_get _ d hlt]
  simp

theorem mkWorkers_length (devices : List String) (n_jobs : ℕ)
    (hd : devices ≠ []) : (mkWorkers devices n_jobs).length = n_jobs := by
  unfold mkWorkers
  rw [if_neg (by simpa using hd)]
  simp

/-- Claim C5 (amended): the pool creates one receive queue per device, not
per worker; worker uid `i` is bound to queue `i % len(devices)` and to
device `devices[i % len(devices)]` (round-robin by uid).  Workers that
share a device share the queue, so the queues are pairwise dedicated
exactly when `n_jobs = len(devices)` — equivalently (validation enforces
`n_jobs ≥ len(devices)`) when `n_jobs ≤ len(devices)`. -/
theorem C5_queue_per_device_amended (devices : List String) (n_jobs i : ℕ)
    (d : Worker) (hd : devices ≠ []) (hi : i < n_jobs) :
    ((mkWorkers devices n_jobs).getD i d).uid = i ∧
    ((mkWorkers devices n_jobs).getD i d).queueId = i % devices.length ∧
    ((mkWorkers devices n_jobs).getD i d).device
      = devices.getD (i % devices.length) "" ∧
    (List.Pairwise (fun w1 w2 => w1.queueId ≠ w2.queueId)
        (mkWorkers devices n_jobs) ↔ n_jobs ≤ devices.length) := by
  have hL : 0 < devices.length := List.length_pos.mpr hd
  refine ⟨?_, ?_, ?_, ?_⟩
  · rw [mkWorkers_getD devices n_jobs i d hd hi]
  · rw [mkWorkers_getD devices n_jobs i d hd hi]
  · rw [mkWorkers_getD devices n_jobs i d hd hi]
  · rw [List.pairwise_iff_getElem]
    constructor
    · intro hp
      by_contra hc
      have hlt : devices.length < n_jobs := not_le.mp hc
      have h0 : (0:ℕ) < (mkWorkers devices n_jobs).length := by
        rw [mkWorkers_length devices n_jobs hd]
        omega
      have hLn : devices.length < (mkWorkers devices n_jobs).length := by
        rw [mkWorkers_length devices n_jobs hd]
        exact hlt
      have := hp 0 devices.length h0 hLn hL
      apply this
      have e0 : (mkWorkers devices n_jobs)[0] =
          (mkWorkers devices n_jobs).getD 0 ⟨0, 0, "", 0⟩ :=
        (List.getD_eq_get _ _ h0).symm
      have e1 : (mkWorkers devices n_jobs)[devices.length] =
          (mkWorkers devices n_jobs).getD devices.length ⟨0, 0, "", 0⟩ :=
        (List.getD_eq_get _ _ hLn).symm
      rw [e0, e1, mkWorkers_getD devices n_jobs 0 _ hd (by omega),
        mkWorkers_getD devices n_jobs devices.length _ hd hlt]
      simp [Nat.mod_self, Nat.zero_mod]
    · intro hle
      intro a b ha hb hab
      have ha2 : a < n_jobs := by
        rw [mkWorkers_length devices n_jobs hd] at ha
        exact ha
      have hb2 : b < n_jobs := by
        rw [mkWorkers_length devices n_jobs hd] at hb
        exact hb
      have ea : (mkWorkers devices n_jobs)[a] =
          (mkWorkers devices n_jobs).getD a ⟨0, 0, "", 0⟩ :=
        (List.getD_eq_get _ _ ha).symm
      have eb : (mkWorkers devices n_jobs)[b] =
          (mkWorkers devices n_jobs).getD b ⟨0, 0, "", 0⟩ :=
        (List.getD_eq_get _ _ hb).symm
      rw [ea, eb, mkWorkers_getD devices n_jobs a _ hd ha2,
        mkWorkers_getD devices n_jobs b _ hd hb2]
      have hma : a % devices.length = a := Nat.mod_eq_of_lt (by omega)
      have hmb : b % devices.length = b := Nat.mod_eq_of_lt (by omega)
      simp only [hma, hmb]
      omega

theorem C5_witness :
    ((mkWorkers ["cpu:0", "cpu:1"] 2).getD 1 ⟨0, 0, "", 0⟩).uid = 1 ∧
    ((mkWorkers ["cpu:0", "cpu:1"] 2).getD 1 ⟨0, 0, "", 0⟩).queueId = 1 ∧
    ((mkWorkers ["cpu:0", "cpu:1"] 2).getD 1 ⟨0, 0, "", 0⟩).device = "cpu:1" ∧
    List.Pairwise (fun w1 w2 => w1.queueId ≠ w2.queueId)
      (mkWorkers ["cpu:0", "cpu:1"] 2) :=
  have h := C5_queue_per_device_amended ["cpu:0", "cpu:1"] 2 1 ⟨0, 0, "", 0⟩
    (by decide) (by decide)
  ⟨h.1, h.2.1, h.2.2.1, h.2.2.2.2 (by decide)⟩

/-- Claim C9 counterexample: on a freshly constructed two-worker pool,
the first `start()` succeeds, but calling `start()` again raises
`Exception("service is already running...")` instead of leaving the pool
unchanged without error. -/
theorem C9_counterexample :
    (WorkerPool.start ⟨[.fresh, .fresh], false, 0⟩).2 = none ∧
    (WorkerPool.start (WorkerPool.start ⟨[.fresh, .fresh], false, 0⟩).1).2
      = some (.exception "service is already running. Consider calling stop() when service is not in use.") := by
  decide

theorem mapComp_join_all_alive (sts : List WorkerStatus)
    (h : ∀ st ∈ sts, st = WorkerStatus.alive) :
    mapComp pyProcessJoin sts = (sts.map fun _ => WorkerStatus.stopped, none) := by
  induction sts with
  | nil => rfl
  | cons st rest ih =>
      have hst : st = WorkerStatus.alive := h st (by simp)
      subst hst
      simp only [mapComp, pyProcessJoin, List.map]
      rw [ih (fun st2 hst2 => h st2 (by simp [hst2]))]

theorem mapComp_close_all_stopped (sts : List WorkerStatus)
    (h : ∀ st ∈ sts, st = WorkerStatus.stopped) :
    mapComp pyProcessClose sts = (sts.map fun _ => WorkerStatus.closed, none) := by
  induction sts with
  | nil => rfl
  | cons st rest ih =>
      have hst : st = WorkerStatus.stopped := h st (by simp)
      subst hst
      simp only [mapComp, pyProcessClose, List.map]
      rw [ih (fun st2 hst2 => h st2 (by simp [hst2]))]

theorem stop_of_all_alive (sts : List WorkerStatus) (ev : Bool) (k : ℕ)
    (hne : sts ≠ []) (hall : ∀ st ∈ sts, st = WorkerStatus.alive) :
    WorkerPool.stop ⟨sts, ev, k⟩
      = (⟨sts.map fun _ => WorkerStatus.closed, true, k + sts.length⟩, none) := by
  obtain ⟨st0, rest, hcons⟩ := List.exists_cons_of_ne_nil hne
  have hst0 : st0 = WorkerStatus.alive := hall st0 (by simp [hcons])
  have hany : anyAlive sts = .ok true := by
    rw [hcons, hst0]
    rfl
  unfold WorkerPool.stop
  simp only
  rw [hany]
  rw [mapComp_join_all_alive sts hall]
  have hclose : mapComp pyProcessClose (sts.map fun _ => WorkerStatus.stopped)
      = ((sts.map fun _ => WorkerStatus.stopped).map fun _ => WorkerStatus.closed, none) :=
    mapComp_close_all_stopped _ (by
      intro st2 hst2
      simp only [List.mem_map] at hst2
      obtain ⟨a, _, ha⟩ := hst2
      exact ha.symm)
  simp only [hclose, List.map_map]
  rfl

theorem stop_of_all_closed (sts : List WorkerStatus) (ev : Bool) (k : ℕ)
    (hne : sts ≠ []) (hall : ∀ st ∈ sts, st = WorkerStatus.closed) :
    WorkerPool.stop ⟨sts, ev, k⟩ = (⟨sts, true, k⟩, none) := by
  obtain ⟨st0, rest, hcons⟩ := List.exists_cons_of_ne_nil hne
  have hst0 : st0 = WorkerStatus.closed := hall st0 (by simp [hcons])
  have hany : anyAlive sts = .error (.valueError "process object is closed") := by
    rw [hcons, hst0]
    rfl
  unfold WorkerPool.stop
  simp only
  rw [hany]

/-- Claim C9 (amended): on a running pool — every worker alive, as after
a successful `start` — `stop` is idempotent: the first `stop` drains and
closes every worker, and a second `stop` only warns (the `is_alive`
check raises ValueError on the closed workers, which the handler turns
into a warning) and leaves the state exactly as it was, raising nothing.
`start`, however, is not idempotent: called on the running pool it
raises instead of leaving the state unchanged. -/
theorem C9_stop_idempotent_start_raises_amended (s : PoolState)
    (hne : s.statuses ≠ [])
    (hall : ∀ st ∈ s.statuses, st = WorkerStatus.alive) :
    (∃ e, WorkerPool.start s = (s, some e)) ∧
    WorkerPool.stop (WorkerPool.stop s).1 = ((WorkerPool.stop s).1, none) := by
  obtain ⟨st0, rest, hcons⟩ := List.exists_cons_of_ne_nil hne
  have hst0 : st0 = WorkerStatus.alive := hall st0 (by simp [hcons])
  have hany : anyAlive s.statuses = .ok true := by
    rw [hcons, hst0]
    rfl
  constructor
  · refine ⟨.exception "service is already running. Consider calling stop() when service is not in use.", ?_⟩
    unfold WorkerPool.start
    rw [hany]
  · obtain ⟨sts, ev, k⟩ := s
    rw [stop_of_all_alive sts ev k hne hall]
    simp only
    rw [stop_of_all_closed (sts.map fun _ => WorkerStatus.closed) true
      (k + sts.length) (by simpa using hne)
      (by
        intro st2 hst2
        simp only [List.mem_map] at hst2
        obtain ⟨a, _, ha⟩ := hst2
        exact ha.symm)]

theorem C9_witness :
    (∃ e, WorkerPool.start ⟨[.alive, .alive], true, 0⟩
        = (⟨[.alive, .alive], true, 0⟩, some e)) ∧
    WorkerPool.stop (WorkerPool.stop ⟨[.alive, .alive], true, 0⟩).1
      = ((WorkerPool.stop ⟨[.alive, .alive], true, 0⟩).1, none) :=
  C9_stop_idempotent_start_raises_amended ⟨[.alive, .alive], true, 0⟩
    (by decide) (by decide)

theorem perm_head_swap {α : Type} (xs : List α) (j : ℕ) (x : α)
    (h : j < xs.length) :
    List.Perm (xs.get ⟨j, h⟩ :: xs.set j x) (x :: xs) := by
  induction xs generalizing j with
  | nil => cases h
  | cons y t ih =>
      cases j with
      | zero =>
          simpa [List.set] using List.Perm.swap x y t
      | succ j =>
          have hj : j < t.length := Nat.lt_of_succ_lt_succ h
          have e : (y :: t).get ⟨j + 1, h⟩ :: (y :: t).set (j + 1) x
              = t.get ⟨j, hj⟩ :: y :: t.set j x := by simp [List.set]
          rw [e]
          exact ((List.Perm.swap _ _ _).trans
            ((ih j hj).cons y)).trans (List.Perm.swap _ _ _)

theorem set_set_swap_perm {α : Type} (xs : List α) (i j : ℕ)
    (hi : i < xs.length) (hj : j < xs.length) :
    List.Perm ((xs.set i (xs.get ⟨j, hj⟩)).set j (xs.get ⟨i, hi⟩)) xs := by
  induction xs generalizing i j with
  | nil => cases hi
  | cons y t ih =>
      cases i with
      | zero =>
          cases j with
          | zero => simp [List.set]
          | succ j =>
              have hj2 : j < t.length := Nat.lt_of_succ_lt_succ hj
              have : ((y :: t).set 0 ((y :: t).get ⟨j + 1, hj⟩)).set (j + 1)
                  ((y :: t).get ⟨0, hi⟩)
                  = t.get ⟨j, hj2⟩ :: t.set j y := by simp [List.set]
              rw [this]
              exact perm_head_swap t j y hj2
      | succ i =>
          cases j with
          | zero =>
              have hi2 : i < t.length := Nat.lt_of_succ_lt_succ hi
              have : ((y :: t).set (i + 1) ((y :: t).get ⟨0, hj⟩)).set 0
                  ((y :: t).get ⟨i + 1, hi⟩)
                  = t.get ⟨i, hi2⟩ :: t.set i y := by simp [List.set]
              rw [this]
              exact perm_head_swap t i y hi2
          | succ j =>
              have hi2 : i < t.length := Nat.lt_of_succ_lt_succ hi
              have hj2 : j < t.length := Nat.lt_of_succ_lt_succ hj
              have : ((y :: t).set (i + 1) ((y :: t).get ⟨j + 1, hj⟩)).set (j + 1)
                  ((y :: t).get ⟨i + 1, hi⟩)
                  = y :: (t.set i (t.get ⟨j, hj2⟩)).set j (t.get ⟨i, hi2⟩) := by
                simp [List.set]
              rw [this]
              exact List.Perm.cons y (ih i j hi2 hj2)

theorem shuffleGo_list_perm {α : Type} (idxs : List ℕ) (js : List ℕ)
    (xs : List α) (h : ∀ i ∈ idxs, i < xs.length) :
    ∃ ys, shuffleGo idxs js (PySeq.list xs) = .ok (PySeq.list ys) ∧
      List.Perm ys xs ∧ ys.length = xs.length := by
  induction idxs generalizing js xs with
  | nil => exact ⟨xs, rfl, List.Perm.refl xs, rfl⟩
  | cons i rest ih =>
      have hi : i < xs.length := h i (by simp)
      have hj : min (js.headD 0) i < xs.length :=
        lt_of_le_of_lt (min_le_right _ _) hi
      have hgetj : pySeqGet (PySeq.list xs) (min (js.headD 0) i)
          = .ok (xs.get ⟨min (js.headD 0) i, hj⟩) := by
        simp only [pySeqGet, PySeq.toList]
        rw [dif_pos hj]
      have hgeti : pySeqGet (PySeq.list xs) i = .ok (xs.get ⟨i, hi⟩) := by
        simp only [pySeqGet, PySeq.toList]
        rw [dif_pos hi]
      have hset1 : pySetItem (PySeq.list xs) i (xs.get ⟨min (js.headD 0) i, hj⟩)
          = .ok (PySeq.list (xs.set i (xs.get ⟨min (js.headD 0) i, hj⟩))) := by
        simp only [pySetItem]
        rw [if_pos hi]
      have hset2 : pySetItem
          (PySeq.list (xs.set i (xs.get ⟨min (js.headD 0) i, hj⟩)))
          (min (js.headD 0) i) (xs.get ⟨i, hi⟩)
          = .ok (PySeq.list ((xs.set i (xs.get ⟨min (js.headD 0) i, hj⟩)).set
              (min (js.headD 0) i) (xs.get ⟨i, hi⟩))) := by
        simp only [pySetItem]
        rw [if_pos (by simpa using hj)]
      obtain ⟨ys, hys, hperm, hlen⟩ := ih js.tail
        ((xs.set i (xs.get ⟨min (js.headD 0) i, hj⟩)).set
          (min (js.headD 0) i) (xs.get ⟨i, hi⟩))
        (by
          intro a ha
          have : a < xs.length := h a (by simp [ha])
          simpa using this)
      refine ⟨ys, ?_, ?_, by simpa using hlen⟩
      · unfold shuffleGo
        rw [hgetj, except_bind_ok, hgeti, except_bind_ok, hset1,
          except_bind_ok, hset2, except_bind_ok]
        exact hys
      · exact hperm.trans (set_set_swap_perm xs i (min (js.headD 0) i) hi hj)

theorem downFrom1_mem_le (n i : ℕ) (h : i ∈ downFrom1 n) : 1 ≤ i ∧ i ≤ n := by
  induction n with
  | zero => cases h
  | succ n ih =>
      simp only [downFrom1, List.mem_cons] at h
      rcases h with h | h
      · omega
      · have := ih h
        omega

/-- Claim C10 counterexample: a tuple with one element (or none) passes
the argument validation and survives `shuffle=True` unchanged — CPython
`random.shuffle` iterates `reversed(range(1, len(x)))`, which is empty,
so no item assignment is attempted and no TypeError is raised; dispatch
proceeds.  This refutes the claim for EVERY tuple. -/
theorem C10_counterexample :
    imapDispatch true (PySeq.tuple [5]) true [] = .ok ([5] : List ℕ) ∧
    imapDispatch true (PySeq.tuple ([] : List ℕ)) true [] = .ok [] :=
  ⟨rfl, rfl⟩

/-- Claim C10 (amended): `imap` with `shuffle=True` permutes the caller's
parameters sequence in place before dispatch — for a list, the dispatched
sequence is a permutation of it produced by the in-place swaps of
`random.shuffle`; consequently, for every tuple of AT LEAST TWO
parameters — which the argument validation accepts — `imap` raises a
TypeError on the first in-place swap, before any job is submitted, while
tuples with fewer than two elements pass through unchanged. -/
theorem C10_shuffle_amended :
    (∀ (α : Type) (xs : List α) (js : List ℕ), 2 ≤ xs.length →
        imapDispatch true (PySeq.tuple xs) true js
          = .error (.typeError "tuple object does not support item assignment")) ∧
    (∀ (α : Type) (xs : List α) (js : List ℕ),
        ∃ ys, imapDispatch true (PySeq.list xs) true js = .ok ys ∧
          List.Perm ys xs) := by
  constructor
  · intro α xs js h2
    obtain ⟨m, hm⟩ : ∃ m, xs.length = m + 2 := ⟨xs.length - 2, by omega⟩
    have hi : m + 1 < xs.length := by omega
    have hmin : min (js.headD 0) (m + 1) < xs.length := by
      have := min_le_right (js.headD 0) (m + 1)
      omega
    have hplen : (PySeq.tuple xs).pyLength - 1 = m + 1 := by
      simp [PySeq.pyLength, PySeq.toList, hm]
    have hgj : pySeqGet (PySeq.tuple xs) (min (js.headD 0) (m + 1))
        = .ok (xs.get ⟨min (js.headD 0) (m + 1), hmin⟩) := by
      simp only [pySeqGet, PySeq.toList]
      rw [dif_pos hmin]
    have hgi : pySeqGet (PySeq.tuple xs) (m + 1)
        = .ok (xs.get ⟨m + 1, hi⟩) := by
      simp only [pySeqGet, PySeq.toList]
      rw [dif_pos hi]
    have hsh : pyShuffle js (PySeq.tuple xs)
        = .error (.typeError "tuple object does not support item assignment") := by
      unfold pyShuffle
      rw [hplen]
      simp only [downFrom1, shuffleGo]
      rw [hgj, except_bind_ok, hgi, except_bind_ok]
      simp only [pySetItem, except_bind_err]
    unfold imapDispatch
    norm_num
    rw [hsh, except_bind_err]
  · intro α xs js
    have hidx : ∀ i ∈ downFrom1 (xs.length - 1), i < xs.length := by
      intro i hi
      have := downFrom1_mem_le (xs.length - 1) i hi
      omega
    obtain ⟨ys, hys, hperm, hlen⟩ :=
      shuffleGo_list_perm (downFrom1 (xs.length - 1)) js xs hidx
    refine ⟨ys, ?_, hperm⟩
    have hsh : pyShuffle js (PySeq.list xs) = .ok (PySeq.list ys) := by
      unfold pyShuffle
      simpa [PySeq.pyLength, PySeq.toList] using hys
    unfold imapDispatch
    norm_num
    rw [hsh, except_bind_ok]
    rfl

theorem C10_witness :
    2 ≤ ([4, 5] : List ℕ).length ∧
    imapDispatch true (PySeq.tuple [4, 5]) true [0]
      = .error (.typeError "tuple object does not support item assignment") :=
  ⟨by decide, C10_shuffle_amended.1 ℕ [4, 5] [0] (by decide)⟩

/-- Claim C4 counterexample: a checkpoint at steps = 5 run with
step_size = 5 and its persisted state missing is NOT raised to the
caller: `train_and_evaluate` catches the MissingStateError, warns, and
returns the trained checkpoint.  A first-run member (steps = 0 < 5) with
missing state is loaded with missing_ok=True and no warning fires —
the opposite of the claim on both counts. -/
theorem C4_counterexample :
    train_and_evaluate ⟨3, 5, false, false, false⟩ 5
      = (⟨3, 10, false, false, true⟩, true) ∧
    train_and_evaluate ⟨3, 0, false, false, false⟩ 5
      = (⟨3, 5, false, false, true⟩, false) := by
  decide

/-- Claim C4 (amended): when a checkpoint's persisted state is missing,
a member with `steps ≥ step_size` triggers MissingStateError inside
`load_state`, which `train_and_evaluate` catches and turns into a
warning — it is never raised to the caller, and training proceeds; a
member in its first-ever run (`steps < step_size`) loads with
missing_ok=True, so neither an error nor the warning occurs. -/
theorem C4_missing_state_warned_amended (c : Checkpoint) (step_size : ℕ)
    (hmiss : c.stateOnDisk = false) :
    (step_size ≤ c.steps →
      train_and_evaluate c step_size = (trainEvalUnload c step_size, true)) ∧
    (c.steps < step_size →
      train_and_evaluate c step_size = (trainEvalUnload c step_size, false)) := by
  constructor
  · intro hle
    unfold train_and_evaluate Checkpoint.load_state
    rw [hmiss]
    have h1 : decide (c.steps < step_size) = false := by
      simp only [decide_eq_false_iff_not]
      omega
    rw [h1]
    rfl
  · intro hlt
    unfold train_and_evaluate Checkpoint.load_state
    rw [hmiss]
    have h1 : decide (c.steps < step_size) = true := by
      simpa using hlt
    rw [h1]
    rfl

theorem C4_witness :
    (5 ≤ 7 →
      train_and_evaluate ⟨1, 7, false, false, false⟩ 5
        = (trainEvalUnload ⟨1, 7, false, false, false⟩ 5, true)) ∧
    ((7:ℕ) < 5 →
      train_and_evaluate ⟨1, 7, false, false, false⟩ 5
        = (trainEvalUnload ⟨1, 7, false, false, false⟩ 5, false)) :=
  C4_missing_state_warned_amended ⟨1, 7, false, false, false⟩ 5 (by decide)

end PBT

